import Mathlib

/-!
# Verification of the drgn CLI composition layer

A shallow embedding of `src/drgn/cli.py`: the `read_memory` and
`lookup_variable` closures defined inside `main`, the path-list construction
handed to `DwarfIndex`, and — modelled from the specification where the
implementation files are not part of the sources — the symbol-file parser,
the debug-information index lookup and the cycle-safe type resolver.

Machine integers are modelled as `Nat` (Python integers are unbounded and all
quantities involved are non-negative), byte strings as `List Nat`, and Python
exceptions as the `Except` monad over an error taxonomy `Err`.
-/

namespace Drgn

/-- The error taxonomy of the specification (§7): `AddressNotMapped` models the
`ValueError` raised by `read_memory`, `UnknownSymbol` the `KeyError` of
`symbols[name]`, `NotFound` / `MissingAttribute` the failures of
`DwarfIndex.find` / `.type()`. `outOfFuel` is an artefact of the fuelled
resolver model, never reachable with sufficient fuel (see the termination
theorem). -/
inductive Err where
  | addressNotMapped
  | unknownSymbol
  | notFound
  | missingAttribute
  | unsupportedType
  | outOfFuel
  deriving DecidableEq, Repr

instance instDecEqExcept {ε α : Type} [DecidableEq ε] [DecidableEq α] :
    DecidableEq (Except ε α) := fun x y =>
  match x, y with
  | .error e, .error f =>
    if h : e = f then .isTrue (h ▸ rfl) else .isFalse (by simp [h])
  | .ok a, .ok b =>
    if h : a = b then .isTrue (h ▸ rfl) else .isFalse (by simp [h])
  | .error _, .ok _ => .isFalse (fun c => Except.noConfusion c)
  | .ok _, .error _ => .isFalse (fun c => Except.noConfusion c)

/-- One ELF program header, with the three fields `read_memory` in
`src/drgn/cli.py` consumes: virtual-address start `p_vaddr`, length `p_memsz`
and file offset `p_offset`. -/
structure Phdr where
  p_vaddr : Nat
  p_memsz : Nat
  p_offset : Nat
  deriving DecidableEq, Repr

/-- The containment test of `read_memory` (`src/drgn/cli.py` line 102):
`phdr.p_vaddr <= address <= phdr.p_vaddr + phdr.p_memsz` — note that BOTH
bounds are inclusive. -/
def containsIncl (p : Phdr) (address : Nat) : Bool :=
  decide (p.p_vaddr ≤ address) && decide (address ≤ p.p_vaddr + p.p_memsz)

/-- Follows the specification's words (§4.3), for comparison with the code:
containment in the half-open range `[start, start + length)`. -/
def containsHalfOpen (p : Phdr) (address : Nat) : Bool :=
  decide (p.p_vaddr ≤ address) && decide (address < p.p_vaddr + p.p_memsz)

/-- The `for phdr in phdrs: if ...: break / else: raise` loop of `read_memory`
(`src/drgn/cli.py` lines 101-105): the first program header, in table order,
whose inclusive range contains `address`. -/
def findSegment (phdrs : List Phdr) (address : Nat) : Option Phdr :=
  phdrs.find? (fun p => containsIncl p address)

/-- Follows the specification's words (§4.3), for comparison with
`findSegment`: `translate` returns the first segment whose HALF-OPEN range
contains the address. -/
def translateSpec (phdrs : List Phdr) (address : Nat) : Option Phdr :=
  phdrs.find? (fun p => containsHalfOpen p address)

/-- `os.pread(fd, size, pos)` against a file modelled as a byte list: at most
`size` bytes starting at file position `pos` (fewer when the file ends
early). The argument order `(size, pos)` mirrors the call in the source. -/
def pread (core_file : List Nat) (size pos : Nat) : List Nat :=
  (core_file.drop pos).take size

/-- `read_memory` from `src/drgn/cli.py` lines 100-107: find the first program
header whose (inclusive) range contains `address`; raise `ValueError`
(`AddressNotMapped`) when none does; otherwise positioned-read `size` bytes
from file position `phdr.p_offset + address - phdr.p_vaddr`. -/
def read_memory (core_file : List Nat) (phdrs : List Phdr) (address size : Nat) :
    Except Err (List Nat) :=
  match findSegment phdrs address with
  | none => .error .addressNotMapped
  | some phdr => .ok (pread core_file size (phdr.p_offset + address - phdr.p_vaddr))

/-- One line of the symbol snapshot: address, one-character kind marker and
name (an optional owning-module suffix carries no address information and is
dropped). Modelled from the spec: the lexical parser `parse_symbol_file` lives
in `drgn/util.py`, which is not among the sources; §4.4 and §6 fix the line
format. -/
structure SymLine where
  addr : Nat
  kind : Char
  name : String
  deriving DecidableEq, Repr

/-- Modelled from the spec: `parse_symbol_file` (§4.4) groups entries by name,
preserving source-listing order, so each name maps to the ordered list of all
addresses recorded for it (duplicates accumulate, e.g. once per module). -/
def symbolAddrs (lines : List SymLine) (name : String) : List Nat :=
  (lines.filter (fun l => l.name == name)).map (fun l => l.addr)

/-- The parsed dictionary `symbols`: a name that never appeared is absent
(`symbols[name]` raises `KeyError`); a present name maps to its non-empty
address list. -/
def symbolsDict (lines : List SymLine) (name : String) : Option (List Nat) :=
  if symbolAddrs lines name = [] then none else some (symbolAddrs lines name)

/-- `symbols[name][-1]` as used by `lookup_variable` (`src/drgn/cli.py` line
96): the last address recorded for `name`, `UnknownSymbol` (Python `KeyError`)
when the name never appeared. The inner `none` branch is unreachable: the
dictionary only ever stores non-empty lists. -/
def lookupSymbol (lines : List SymLine) (name : String) : Except Err Nat :=
  match symbolsDict lines name with
  | none => .error .unknownSymbol
  | some addrs =>
    match addrs.getLast? with
    | none => .error .unknownSymbol
    | some a => .ok a

/-- `lookup_variable` from `src/drgn/cli.py` lines 95-98, with its three
collaborators abstracted as `Except`-valued functions (their implementations
are not among the sources; the spec §4.1/§4.2 fixes their failure modes):
`symbols[name][-1]`, then `dwarf_index.find(name, DW_TAG.variable)`, then
`.type()`, then `type_index.find_dwarf_type(...)`. Each step propagates its
error; only full success returns the pair. -/
def lookup_variable {Die Ty : Type} (symbols : String → Option (List Nat))
    (find : String → Except Err Die)
    (typeOf : Die → Except Err Die)
    (find_dwarf_type : Die → Except Err Ty)
    (name : String) : Except Err (Nat × Ty) :=
  match symbols name with
  | none => .error .unknownSymbol
  | some addrs =>
    match addrs.getLast? with
    | none => .error .unknownSymbol
    | some address =>
      match find name with
      | .error e => .error e
      | .ok die =>
        match typeOf die with
        | .error e => .error e
        | .ok dwarf_type =>
          match find_dwarf_type dwarf_type with
          | .error e => .error e
          | .ok ty => .ok (address, ty)

/-- Modelled from the spec: a debug-information type record (§3). The
resolver's implementation (`drgn/typeindex.py`) is not among the sources.
References to other records are by stable identity (`Nat` keys into the
record graph), per §3/§9; a structure member is (name, byte offset, type
reference). -/
inductive DwarfRecord where
  | base (name : String) (size : Nat)
  | pointer (ref : Nat)
  | struct_ (name : String) (size : Nat) (members : List (String × Nat × Nat))
  | typedef_ (name : String) (ref : Nat)
  deriving DecidableEq, Repr

/-- The identities of the records a record's resolution must recursively
resolve (pointee, member types, underlying type). -/
def recordRefs : DwarfRecord → List Nat
  | .base _ _ => []
  | .pointer r => [r]
  | .struct_ _ _ ms => ms.map (fun m => m.2.2)
  | .typedef_ _ r => [r]

/-- Modelled from the spec: resolved type descriptors (§3), stored in an arena
keyed by record identity; `referent` / member types / `underlying` are arena
keys, not owning pointers — two references to the same key denote the
identical descriptor. `placeholder` is the in-progress entry of §4.2/§9. -/
inductive TypeDescriptor where
  | placeholder
  | base (name : String) (size : Nat)
  | pointer (referent : Nat)
  | struct_ (name : String) (size : Nat) (members : List (String × Nat × Nat))
  | typedef_ (name : String) (underlying : Nat)
  deriving DecidableEq, Repr

/-- The descriptor a fully-resolved record contributes; member order and byte
offsets are taken verbatim from the record (§4.2). -/
def mkDescriptor : DwarfRecord → TypeDescriptor
  | .base n s => .base n s
  | .pointer r => .pointer r
  | .struct_ n s ms => .struct_ n s ms
  | .typedef_ n r => .typedef_ n r

/-- The resolver's cache/arena: record identity to descriptor (the entry is
`placeholder` while resolution of that identity is in progress). -/
abbrev Arena := List (Nat × TypeDescriptor)

/-- Cache lookup by record identity. -/
def lookupTD (arena : Arena) (i : Nat) : Option TypeDescriptor :=
  (arena.find? (fun e => e.1 == i)).map (fun e => e.2)

/-- Fill the entry for key `i` in place (the first occurrence, which is the
one `lookupTD` sees). -/
def setTD (arena : Arena) (i : Nat) (td : TypeDescriptor) : Arena :=
  match arena with
  | [] => []
  | e :: es => if e.1 == i then (i, td) :: es else e :: setTD es i td

/-- The record graph: identity to record, first binding wins. -/
def lookupRecord (g : List (Nat × DwarfRecord)) (i : Nat) : Option DwarfRecord :=
  (g.find? (fun e => e.1 == i)).map (fun e => e.2)

/-- Resolve a list of referenced identities in order, threading the arena;
the first failure aborts. -/
def resolveChildren (step : Arena → Nat → Except Err Arena) :
    Arena → List Nat → Except Err Arena
  | arena, [] => .ok arena
  | arena, j :: js =>
    match step arena j with
    | .error e => .error e
    | .ok arena' => resolveChildren step arena' js

/-- Modelled from the spec: the cycle-safe resolver of §4.2/§9 (its
implementation, `drgn/typeindex.py`, is not among the sources). A cache hit —
placeholder included — returns immediately; otherwise the resolver registers
an in-progress `placeholder` under the record's identity BEFORE recursing into
the referenced records, then fills the entry in place. The explicit fuel makes
the recursion structural; the termination theorem shows that fuel exceeding
the number of distinct unresolved identities is always enough, so the fuel is
an artefact of the model, not of the algorithm. -/
def resolveFuel (g : List (Nat × DwarfRecord)) : Nat → Arena → Nat → Except Err Arena
  | 0, _, _ => .error .outOfFuel
  | fuel + 1, arena, i =>
    if (lookupTD arena i).isSome then .ok arena
    else
      match lookupRecord g i with
      | none => .error .notFound
      | some r =>
        match resolveChildren (resolveFuel g fuel) ((i, .placeholder) :: arena) (recordRefs r) with
        | .error e => .error e
        | .ok arena' => .ok (setTD arena' i (mkDescriptor r))

/-- The distinct record identities of a graph. -/
def graphIds (g : List (Nat × DwarfRecord)) : Finset Nat :=
  (g.map Prod.fst).toFinset

/-- The identities registered in the arena (placeholders included). -/
def arenaIds (arena : Arena) : Finset Nat :=
  (arena.map Prod.fst).toFinset

/-- The number of graph identities not yet registered in the arena: the
decreasing measure of the resolver. -/
def unresolvedCount (g : List (Nat × DwarfRecord)) (arena : Arena) : Nat :=
  (graphIds g \ arenaIds arena).card

/-- A self-referential record graph: `struct node` whose first member points
to `struct node` itself (identity 0 refers to 1 refers back to 0). -/
def gSelf : List (Nat × DwarfRecord) :=
  [(0, .struct_ "node" 16 [("next", 0, 1), ("val", 8, 2)]),
   (1, .pointer 0),
   (2, .base "long" 8)]

/-- A pointer-to-struct-to-pointer-to-original-struct chain: identity 0 is
`struct S` whose member has type 1, a pointer whose referent is 0 again. -/
def gChain : List (Nat × DwarfRecord) :=
  [(0, .struct_ "S" 8 [("self", 0, 1)]), (1, .pointer 0)]

/-- The path-list construction of `main` (`src/drgn/cli.py` lines 80-84):
`paths = find_modules(release)` followed by `paths.append(args.executable)`;
the filesystem discovery inside `find_modules` is abstracted as the given
module-path list. The result is what line 86 hands to `DwarfIndex`. -/
def buildPaths (modulePaths : List String) (executable : String) : List String :=
  modulePaths ++ [executable]

/-- Modelled from the spec: `DwarfIndex.find` (§4.1) scans binaries in the
caller-supplied path order and returns the record from the first binary that
contains a match (`recs path name` is the record, if any, binary `path` holds
for `name` at the fixed kind); `NotFound` when no binary matches. -/
def indexFind (recs : String → String → Option Nat) :
    List String → String → Except Err Nat
  | [], _ => .error .notFound
  | p :: ps, name =>
    match recs p name with
    | some r => .ok r
    | none => indexFind recs ps name

/-- Concrete record oracle for the index-priority witness: the module and the
executable both define a record named `bar`. -/
def recsEx : String → String → Option Nat := fun p n =>
  if p == "mod.ko" && n == "bar" then some 1
  else if p == "vmlinux" && n == "bar" then some 2
  else none

/-- The arena produced by resolving the `gChain` graph from an empty cache. -/
def arenaChain : Arena :=
  [(1, .pointer 0), (0, .struct_ "S" 8 [("self", 0, 1)])]

/-- Concrete symbol dictionary for the `lookup_variable` witness. -/
def symbolsEx : String → Option (List Nat) := fun n =>
  if n == "jiffies" then some [4096, 8192] else none

/-- Concrete `dwarf_index.find` oracle for the `lookup_variable` witness. -/
def findEx : String → Except Err Nat := fun _ => .ok 7

/-- Concrete `.type()` oracle for the `lookup_variable` witness. -/
def typeOfEx : Nat → Except Err Nat := fun d => .ok (d + 1)

/-- Concrete `find_dwarf_type` oracle for the `lookup_variable` witness. -/
def fdtEx : Nat → Except Err Nat := fun _ => .ok 99

/-- C1 counterexample: the claim says an address equal to `start + length` is
not contained in that segment and hence not matched, but the code's loop
matches it: `findSegment` returns the segment at `0x20 = 0x10 + 0x10` even
though the spec's half-open translation (`translateSpec`) matches nothing. -/
theorem findSegment_matches_one_past_end :
    findSegment [⟨0x10, 0x10, 0⟩] 0x20 = some ⟨0x10, 0x10, 0⟩ ∧
    translateSpec [⟨0x10, 0x10, 0⟩] 0x20 = none := by decide

/-- C1 (amended): address translation scans the segments in table order and
matches the first segment whose INCLUSIVE range `[start, start + length]`
contains the address; an address equal to `start + length` of a segment IS
contained in that segment. -/
theorem findSegment_first_inclusive_match (phdrs : List Phdr) (address : Nat) (p : Phdr) :
    (findSegment phdrs address = some p ↔
      containsIncl p address = true ∧
        ∃ earlier later, phdrs = earlier ++ p :: later ∧
          ∀ q ∈ earlier, containsIncl q address = false) ∧
    (∀ q : Phdr, containsIncl q (q.p_vaddr + q.p_memsz) = true) := by
  constructor
  · rw [findSegment, List.find?_eq_some]
    simp
  · intro q
    simp [containsIncl]

/-- C9: the segment-containment test uses an inclusive upper bound: the
address `0x20`, one past the half-open end of the single segment
`[0x10, 0x20)` and contained in no earlier segment, is treated as mapped to
that segment and read from file position `fileOffset + length = 0 + 0x10`
rather than raising `AddressNotMapped`. -/
theorem read_memory_inclusive_upper_bound :
    containsHalfOpen ⟨0x10, 0x10, 0⟩ 0x20 = false ∧
    findSegment [⟨0x10, 0x10, 0⟩] 0x20 = some ⟨0x10, 0x10, 0⟩ ∧
    read_memory (List.range 20) [⟨0x10, 0x10, 0⟩] 0x20 4 =
      .ok (pread (List.range 20) 4 (0 + 0x10)) ∧
    read_memory (List.range 20) [⟨0x10, 0x10, 0⟩] 0x20 4 ≠ .error .addressNotMapped := by
  decide

/-- C3 counterexample: the claim's "if and only if" fails in the only-if
direction when containment is read as the spec's half-open containment: at
address `0x20`, no segment of `[⟨0x10, 0x10, 0⟩]` contains the address
half-open, yet `read_memory` does not raise `AddressNotMapped`. -/
theorem read_memory_succeeds_outside_halfOpen :
    (∀ p ∈ [(⟨0x10, 0x10, 0⟩ : Phdr)], containsHalfOpen p 0x20 = false) ∧
    read_memory [] [⟨0x10, 0x10, 0⟩] 0x20 1 ≠ .error .addressNotMapped := by decide

/-- C3 (amended): `read_memory` raises `AddressNotMapped` if and only if no
segment's INCLUSIVE range `[start, start + length]` contains the address; on
such an error no bytes are returned; with one segment `[0x1000, 0x2000)` the
call `readMemory(0x3000, 1)` fails with `AddressNotMapped`. -/
theorem read_memory_not_mapped_iff (core_file : List Nat) (phdrs : List Phdr)
    (address size : Nat) :
    (read_memory core_file phdrs address size = .error .addressNotMapped ↔
      ∀ p ∈ phdrs, containsIncl p address = false) ∧
    (read_memory core_file phdrs address size = .error .addressNotMapped →
      ∀ bs, read_memory core_file phdrs address size ≠ .ok bs) ∧
    read_memory core_file [⟨0x1000, 0x1000, 0⟩] 0x3000 1 = .error .addressNotMapped := by
  refine ⟨?_, ?_, ?_⟩
  · constructor
    · intro h q hq
      cases hf : findSegment phdrs address with
      | none =>
        have := List.find?_eq_none.mp hf q hq
        simpa using this
      | some s =>
        rw [read_memory, hf] at h
        exact absurd h (by simp)
    · intro h
      have hf : findSegment phdrs address = none := by
        apply List.find?_eq_none.mpr
        intro q hq
        simp [h q hq]
      rw [read_memory, hf]
  · intro h bs hbs
    rw [h] at hbs
    exact Except.noConfusion hbs
  · have hf : findSegment [⟨0x1000, 0x1000, 0⟩] 0x3000 = none := by decide
    rw [read_memory, hf]

/-- C3 witness: the amended theorem evaluated at a concrete unmapped read. -/
theorem read_memory_not_mapped_iff_witness :
    read_memory [] [⟨0x1000, 0x1000, 0⟩] 0x3000 1 = .error .addressNotMapped :=
  (read_memory_not_mapped_iff [] [] 0 0).2.2

/-- C4 counterexample: with adjacent segments `[0x10, 0x20)` (offset 0) and
`[0x20, 0x30)` (offset 0x50), the spec's translation matches the second
segment at address `0x20` and the claimed formula predicts the byte at file
position `0x50`, but the code matches the FIRST segment (inclusive bound) and
returns the byte at file position `0x10` instead. -/
theorem read_memory_wrong_segment_at_boundary :
    translateSpec [⟨0x10, 0x10, 0⟩, ⟨0x20, 0x10, 0x50⟩] 0x20 = some ⟨0x20, 0x10, 0x50⟩ ∧
    pread (List.range 0x60) 1 (0x50 + (0x20 - 0x20)) = [0x50] ∧
    read_memory (List.range 0x60) [⟨0x10, 0x10, 0⟩, ⟨0x20, 0x10, 0x50⟩] 0x20 1 =
      .ok [0x10] ∧
    ([0x10] : List Nat) ≠ [0x50] := by decide

/-- C4 (amended): for every address half-open-contained in some segment, the
read succeeds and returns `size` bytes read from file position
`fileOffset + (address - start)` of the matched segment, where the matched
segment is the FIRST segment whose inclusive range `[start, start + length]`
contains the address; for a one-segment image `[0x1000, 0x2000)` at file
offset 0, `readMemory(0x1000, 16)` returns exactly the first 16 bytes of the
file. -/
theorem read_memory_positioned_read (core_file : List Nat) (phdrs : List Phdr)
    (address size : Nat) (h : ∃ q ∈ phdrs, containsHalfOpen q address = true) :
    (∃ p, findSegment phdrs address = some p ∧ containsIncl p address = true ∧
        read_memory core_file phdrs address size =
          .ok (pread core_file size (p.p_offset + (address - p.p_vaddr)))) ∧
    read_memory (List.range 32) [⟨0x1000, 0x1000, 0⟩] 0x1000 16 =
      .ok ((List.range 32).take 16) := by
  constructor
  · have hsome : (findSegment phdrs address).isSome := by
      rw [findSegment, List.find?_isSome]
      obtain ⟨q, hq, hqc⟩ := h
      refine ⟨q, hq, ?_⟩
      simp only [containsHalfOpen, containsIncl, Bool.and_eq_true, decide_eq_true_eq] at hqc ⊢
      omega
    obtain ⟨p, hp⟩ := Option.isSome_iff_exists.mp hsome
    have hp' := hp
    unfold findSegment at hp'
    have hpc : containsIncl p address = true := by simpa using List.find?_some hp'
    refine ⟨p, hp, hpc, ?_⟩
    rw [read_memory, hp]
    have hle : p.p_vaddr ≤ address := by
      simp only [containsIncl, Bool.and_eq_true, decide_eq_true_eq] at hpc
      exact hpc.1
    have harith : p.p_offset + address - p.p_vaddr = p.p_offset + (address - p.p_vaddr) := by
      omega
    exact congrArg (fun pos => Except.ok (pread core_file size pos)) harith
  · decide

/-- C4 witness: the amended theorem evaluated on the one-segment image. -/
theorem read_memory_positioned_read_witness :
    (∃ p, findSegment [⟨0x1000, 0x1000, 0⟩] 0x1000 = some p ∧
        containsIncl p 0x1000 = true ∧
        read_memory (List.range 32) [⟨0x1000, 0x1000, 0⟩] 0x1000 16 =
          .ok (pread (List.range 32) 16 (p.p_offset + (0x1000 - p.p_vaddr)))) ∧
    read_memory (List.range 32) [⟨0x1000, 0x1000, 0⟩] 0x1000 16 =
      .ok ((List.range 32).take 16) :=
  read_memory_positioned_read (List.range 32) [⟨0x1000, 0x1000, 0⟩] 0x1000 16 (by decide)

/-- C5: `read_memory` performs no end-of-range check: whenever the matched
segment `p` contains the start address but `[address, address + size)`
extends past `p`'s end, the read does not fail and returns `size` raw file
bytes from position `p.p_offset + (address - p.p_vaddr)` onward — exactly the
bytes the file holds there, as if the segment were unbounded above (the
segment length does not enter the result at all). -/
theorem read_memory_no_bounds_check (core_file : List Nat) (phdrs : List Phdr)
    (address size : Nat) (p : Phdr)
    (h1 : findSegment phdrs address = some p)
    (h2 : p.p_vaddr + p.p_memsz < address + size)
    (h3 : p.p_offset + (address - p.p_vaddr) + size ≤ core_file.length) :
    read_memory core_file phdrs address size =
      .ok (pread core_file size (p.p_offset + (address - p.p_vaddr))) ∧
    (pread core_file size (p.p_offset + (address - p.p_vaddr))).length = size := by
  have h1' := h1
  unfold findSegment at h1'
  have hpc : containsIncl p address = true := by simpa using List.find?_some h1'
  simp only [containsIncl, Bool.and_eq_true, decide_eq_true_eq] at hpc
  constructor
  · rw [read_memory, h1]
    have harith : p.p_offset + address - p.p_vaddr = p.p_offset + (address - p.p_vaddr) := by
      omega
    exact congrArg (fun pos => Except.ok (pread core_file size pos)) harith
  · simp only [pread, List.length_take, List.length_drop]
    omega

/-- C5 witness: a read of 16 bytes starting 8 bytes into a 16-byte segment
crosses the segment end and still returns all 16 bytes. -/
theorem read_memory_no_bounds_check_witness :
    read_memory (List.range 32) [⟨16, 16, 0⟩] 24 16 =
      .ok (pread (List.range 32) 16 (0 + (24 - 16))) ∧
    (pread (List.range 32) 16 (0 + (24 - 16))).length = 16 :=
  read_memory_no_bounds_check (List.range 32) [⟨16, 16, 0⟩] 24 16 ⟨16, 16, 0⟩
    (by decide) (by decide) (by decide)

/-- The head of a filtered list is the first element satisfying the filter. -/
theorem head?_filter {α : Type} (p : α → Bool) (l : List α) :
    (l.filter p).head? = l.find? p := by
  induction l with
  | nil => rfl
  | cons x xs ih =>
    by_cases h : p x
    · simp [List.filter_cons, h, List.find?_cons_of_pos _ h]
    · simp only [Bool.not_eq_true] at h
      simp [List.filter_cons, h, List.find?_cons_of_neg, ih]

/-- `lookupSymbol` succeeds exactly on the last recorded address for the
name. -/
theorem lookupSymbol_eq_ok_iff (lines : List SymLine) (name : String) (a : Nat) :
    lookupSymbol lines name = .ok a ↔ (symbolAddrs lines name).getLast? = some a := by
  unfold lookupSymbol symbolsDict
  by_cases h : symbolAddrs lines name = []
  · simp [h]
  · rw [if_neg h]
    cases hg : (symbolAddrs lines name).getLast? with
    | none => exact absurd (List.getLast?_eq_none_iff.mp hg) h
    | some b => simp [hg]

/-- C2: looking up a name that appears in the listing returns the address of
the LAST entry for that name in listing order (the entry after which no
further entry carries that name), and a table built from lines
`1000 D foo`, `2000 D foo`, `3000 D foo` resolves `foo` to `0x3000`. -/
theorem lookupSymbol_last_wins (lines : List SymLine) (name : String) (a : Nat) :
    (lookupSymbol lines name = .ok a ↔
      ∃ pre entry post, lines = pre ++ entry :: post ∧ entry.name = name ∧
        entry.addr = a ∧ ∀ r ∈ post, r.name ≠ name) ∧
    lookupSymbol
      [⟨0x1000, 'D', "foo"⟩, ⟨0x2000, 'D', "foo"⟩, ⟨0x3000, 'D', "foo"⟩] "foo" =
      .ok 0x3000 := by
  constructor
  · rw [lookupSymbol_eq_ok_iff]
    unfold symbolAddrs
    rw [← List.head?_reverse, ← List.map_reverse, ← List.filter_reverse,
      List.head?_map, head?_filter]
    rw [Option.map_eq_some']
    simp only [List.find?_eq_some]
    constructor
    · rintro ⟨entry, ⟨hp, as, bs, hsplit, hall⟩, haddr⟩
      refine ⟨bs.reverse, entry, as.reverse, ?_, ?_, haddr, ?_⟩
      · have := congrArg List.reverse hsplit
        simpa using this
      · simpa using hp
      · intro r hr
        have := hall r (List.mem_reverse.mp hr)
        simpa using this
    · rintro ⟨pre, entry, post, hsplit, hname, haddr, hall⟩
      refine ⟨entry, ⟨by simp [hname], post.reverse, pre.reverse, ?_, ?_⟩, haddr⟩
      · simp [hsplit]
      · intro x hx
        have := hall x (List.mem_reverse.mp hx)
        simpa using this
  · decide

/-- C2 witness: the theorem's concrete conjunct, extracted at an arbitrary
instantiation. -/
theorem lookupSymbol_last_wins_witness :
    lookupSymbol
      [⟨0x1000, 'D', "foo"⟩, ⟨0x2000, 'D', "foo"⟩, ⟨0x3000, 'D', "foo"⟩] "foo" =
      .ok 0x3000 :=
  (lookupSymbol_last_wins [] "foo" 0).2

/-- C6: `lookup_variable` never partially succeeds: it returns `.ok` exactly
when the symbol-table lookup, the index `find`, the `.type()` access and the
type resolution ALL succeed (and then returns the last symbol address
together with the resolved type); a missing symbol gives `UnknownSymbol`
first, and any error outcome excludes any success outcome. -/
theorem lookup_variable_all_or_nothing {Die Ty : Type}
    (symbols : String → Option (List Nat))
    (find : String → Except Err Die) (typeOf : Die → Except Err Die)
    (find_dwarf_type : Die → Except Err Ty) (name : String) (a : Nat) (t : Ty) :
    (lookup_variable symbols find typeOf find_dwarf_type name = .ok (a, t) ↔
      ∃ addrs die dwarf_type, symbols name = some addrs ∧ addrs.getLast? = some a ∧
        find name = .ok die ∧ typeOf die = .ok dwarf_type ∧
        find_dwarf_type dwarf_type = .ok t) ∧
    (symbols name = none →
      lookup_variable symbols find typeOf find_dwarf_type name =
        .error .unknownSymbol) ∧
    (∀ e, lookup_variable symbols find typeOf find_dwarf_type name = .error e →
      ∀ a' t', lookup_variable symbols find typeOf find_dwarf_type name ≠
        .ok (a', t')) := by
  refine ⟨?_, ?_, ?_⟩
  · unfold lookup_variable
    cases hs : symbols name with
    | none => simp [hs]
    | some addrs =>
      cases hl : addrs.getLast? with
      | none => simp [hs, hl]
      | some address =>
        cases hf : find name with
        | error e => simp [hs, hl, hf]
        | ok die =>
          cases ht : typeOf die with
          | error e => simp [hs, hl, hf, ht]
          | ok dwarf_type =>
            cases hd : find_dwarf_type dwarf_type with
            | error e => simp [hs, hl, hf, ht, hd]
            | ok ty =>
              simp only [hs, hl, hf, ht, hd]
              constructor
              · intro h
                have h' := Except.ok.inj h
                have h1 : address = a := congrArg Prod.fst h'
                have h2 : ty = t := congrArg Prod.snd h'
                exact ⟨addrs, die, dwarf_type, rfl, h1 ▸ hl, rfl, ht, h2 ▸ hd⟩
              · rintro ⟨addrs', die', dwarf_type', ha', hl', hf', ht', hd'⟩
                obtain rfl : addrs' = addrs := (Option.some.inj ha').symm
                obtain rfl : die' = die := (Except.ok.inj hf').symm
                obtain rfl : dwarf_type' = dwarf_type :=
                  (Except.ok.inj (ht.symm.trans ht')).symm
                obtain rfl : address = a := Option.some.inj (hl.symm.trans hl')
                obtain rfl : ty = t := Except.ok.inj (hd.symm.trans hd')
                rfl
  · intro h
    unfold lookup_variable
    simp [h]
  · intro e he a' t' hok
    rw [he] at hok
    exact Except.noConfusion hok

/-- C6 witness: the theorem's success characterization evaluated on concrete
collaborators. -/
theorem lookup_variable_all_or_nothing_witness :
    lookup_variable symbolsEx findEx typeOfEx fdtEx "jiffies" = .ok (8192, 99) :=
  (lookup_variable_all_or_nothing symbolsEx findEx typeOfEx fdtEx "jiffies" 8192 99).1.mpr
    ⟨[4096, 8192], 7, 8, by decide, by decide, by decide, by decide, by decide⟩

/-- C10: the path list handed to `DwarfIndex` is the discovered module paths
followed by the executable as its LAST element, so under first-binary-wins
resolution a record found in some module is returned from that module, taking
priority over the executable's record. -/
theorem buildPaths_modules_first (modulePaths : List String) (executable : String) :
    (buildPaths modulePaths executable).getLast? = some executable ∧
    (buildPaths modulePaths executable).dropLast = modulePaths ∧
    (∀ recs name r, indexFind recs modulePaths name = .ok r →
      indexFind recs (buildPaths modulePaths executable) name = .ok r) := by
  refine ⟨List.getLast?_concat _, List.dropLast_concat, ?_⟩
  intro recs name r
  induction modulePaths with
  | nil =>
    intro h
    exact absurd h (by simp [indexFind])
  | cons p ps ih =>
    intro h
    rw [indexFind] at h
    simp only [buildPaths, List.cons_append]
    rw [indexFind]
    cases hr : recs p name with
    | some r' =>
      rw [hr] at h
      exact h
    | none =>
      rw [hr] at h
      simp only [buildPaths] at ih
      exact ih h

/-- C10 witness: with one module and the executable both defining `bar`, the
index returns the module's record. -/
theorem buildPaths_modules_first_witness :
    (buildPaths ["mod.ko"] "vmlinux").getLast? = some "vmlinux" ∧
    (buildPaths ["mod.ko"] "vmlinux").dropLast = ["mod.ko"] ∧
    indexFind recsEx (buildPaths ["mod.ko"] "vmlinux") "bar" = .ok 1 :=
  ⟨(buildPaths_modules_first ["mod.ko"] "vmlinux").1,
   (buildPaths_modules_first ["mod.ko"] "vmlinux").2.1,
   (buildPaths_modules_first ["mod.ko"] "vmlinux").2.2 recsEx "bar" 1 (by decide)⟩

/-- `arenaIds` of a cons is an insert. -/
theorem arenaIds_cons (e : Nat × TypeDescriptor) (arena : Arena) :
    arenaIds (e :: arena) = insert e.1 (arenaIds arena) := by
  simp [arenaIds]

/-- Membership in `arenaIds` is exactly a cache hit of `lookupTD`. -/
theorem mem_arenaIds (arena : Arena) (i : Nat) :
    i ∈ arenaIds arena ↔ (lookupTD arena i).isSome := by
  rw [arenaIds, List.mem_toFinset, lookupTD]
  cases hf : arena.find? (fun e => e.1 == i) with
  | none =>
    simp only [Option.map_none', Option.isSome_none]
    have hall := List.find?_eq_none.mp hf
    simp only [List.mem_map]
    constructor
    · rintro ⟨e, he, rfl⟩
      exact absurd (by simp : (e.1 == e.1) = true) (hall e he)
    · intro hcon
      exact absurd hcon (by simp)
  | some e =>
    simp only [Option.map_some', Option.isSome_some]
    have he : e ∈ arena := List.mem_of_find?_eq_some hf
    have heq : e.1 = i := by simpa using List.find?_some hf
    simp only [List.mem_map, iff_true]
    exact ⟨e, he, heq⟩

/-- `setTD` fills an entry in place: the registered identities are
unchanged. -/
theorem arenaIds_setTD (arena : Arena) (i : Nat) (td : TypeDescriptor) :
    arenaIds (setTD arena i td) = arenaIds arena := by
  induction arena with
  | nil => rfl
  | cons e es ih =>
    rw [setTD]
    by_cases h : (e.1 == i) = true
    · rw [if_pos h]
      have h' : e.1 = i := by simpa using h
      simp [arenaIds_cons, h']
    · rw [if_neg h]
      rw [arenaIds_cons, arenaIds_cons, ih]

/-- A record found in the graph has its identity among the graph's
identities. -/
theorem mem_graphIds_of_lookupRecord (g : List (Nat × DwarfRecord)) (i : Nat)
    (r : DwarfRecord) (h : lookupRecord g i = some r) : i ∈ graphIds g := by
  unfold lookupRecord at h
  cases hf : g.find? (fun e => e.1 == i) with
  | none => rw [hf] at h; exact absurd h (by simp)
  | some e =>
    have he : e ∈ g := List.mem_of_find?_eq_some hf
    have heq : e.1 = i := by simpa using List.find?_some hf
    unfold graphIds
    rw [List.mem_toFinset]
    exact heq ▸ List.mem_map_of_mem Prod.fst he

/-- Growing the arena never increases the number of unresolved
identities. -/
theorem unresolvedCount_antitone (g : List (Nat × DwarfRecord)) (a a' : Arena)
    (h : arenaIds a ⊆ arenaIds a') : unresolvedCount g a' ≤ unresolvedCount g a :=
  Finset.card_le_card (Finset.sdiff_subset_sdiff (Finset.Subset.refl _) h)

/-- Registering a fresh graph identity strictly decreases the number of
unresolved identities: the measure behind the resolver's termination. -/
theorem unresolvedCount_insert_lt (g : List (Nat × DwarfRecord)) (arena : Arena)
    (i : Nat) (td : TypeDescriptor) (hg : i ∈ graphIds g) (ha : i ∉ arenaIds arena) :
    unresolvedCount g ((i, td) :: arena) < unresolvedCount g arena := by
  unfold unresolvedCount
  rw [arenaIds_cons]
  show (graphIds g \ insert i (arenaIds arena)).card < (graphIds g \ arenaIds arena).card
  have hmem : i ∈ graphIds g \ arenaIds arena := Finset.mem_sdiff.mpr ⟨hg, ha⟩
  have hset : graphIds g \ insert i (arenaIds arena) =
      (graphIds g \ arenaIds arena).erase i := by
    ext x
    simp only [Finset.mem_sdiff, Finset.mem_erase, Finset.mem_insert]
    tauto
  rw [hset]
  exact Finset.card_erase_lt_of_mem hmem

/-- A successful `resolveChildren` run only ever adds cache entries. -/
theorem resolveChildren_mono (step : Arena → Nat → Except Err Arena)
    (hstep : ∀ arena j arena', step arena j = .ok arena' →
      arenaIds arena ⊆ arenaIds arena')
    (js : List Nat) : ∀ arena arena', resolveChildren step arena js = .ok arena' →
      arenaIds arena ⊆ arenaIds arena' := by
  induction js with
  | nil =>
    intro arena arena' h
    simp only [resolveChildren] at h
    obtain rfl : arena = arena' := Except.ok.inj h
    exact Finset.Subset.refl _
  | cons j js ih =>
    intro arena arena' h
    simp only [resolveChildren] at h
    cases hs : step arena j with
    | error e => rw [hs] at h; exact absurd h (by simp)
    | ok a1 =>
      rw [hs] at h
      exact (hstep arena j a1 hs).trans (ih a1 arena' h)

/-- A successful `resolveFuel` run only ever adds cache entries. -/
theorem resolveFuel_mono (g : List (Nat × DwarfRecord)) :
    ∀ fuel arena i arena', resolveFuel g fuel arena i = .ok arena' →
      arenaIds arena ⊆ arenaIds arena' := by
  intro fuel
  induction fuel with
  | zero =>
    intro arena i arena' h
    simp only [resolveFuel] at h
    exact Except.noConfusion h
  | succ fuel ih =>
    intro arena i arena' h
    simp only [resolveFuel] at h
    by_cases hhit : (lookupTD arena i).isSome
    · rw [if_pos hhit] at h
      obtain rfl : arena = arena' := Except.ok.inj h
      exact Finset.Subset.refl _
    · rw [if_neg hhit] at h
      cases hr : lookupRecord g i with
      | none => rw [hr] at h; exact absurd h (by simp)
      | some r =>
        simp only [hr] at h
        cases hc : resolveChildren (resolveFuel g fuel)
            ((i, TypeDescriptor.placeholder) :: arena) (recordRefs r) with
        | error e => rw [hc] at h; exact absurd h (by simp)
        | ok a1 =>
          rw [hc] at h
          obtain rfl : setTD a1 i (mkDescriptor r) = arena' := Except.ok.inj h
          have hsub : arenaIds ((i, TypeDescriptor.placeholder) :: arena) ⊆ arenaIds a1 :=
            resolveChildren_mono (resolveFuel g fuel)
              (fun ar j ar' hh => ih ar j ar' hh) (recordRefs r) _ _ hc
          intro x hx
          rw [arenaIds_setTD]
          exact hsub (by rw [arenaIds_cons]; exact Finset.mem_insert_of_mem hx)

/-- After a successful resolution of identity `i`, the cache holds an entry
for `i`. -/
theorem resolveFuel_registered (g : List (Nat × DwarfRecord)) (fuel : Nat)
    (arena : Arena) (i : Nat) (arena' : Arena)
    (h : resolveFuel g fuel arena i = .ok arena') : (lookupTD arena' i).isSome := by
  cases fuel with
  | zero =>
    simp only [resolveFuel] at h
    exact Except.noConfusion h
  | succ fuel =>
    simp only [resolveFuel] at h
    by_cases hhit : (lookupTD arena i).isSome
    · rw [if_pos hhit] at h
      obtain rfl : arena = arena' := Except.ok.inj h
      exact hhit
    · rw [if_neg hhit] at h
      cases hr : lookupRecord g i with
      | none => rw [hr] at h; exact absurd h (by simp)
      | some r =>
        simp only [hr] at h
        cases hc : resolveChildren (resolveFuel g fuel)
            ((i, TypeDescriptor.placeholder) :: arena) (recordRefs r) with
        | error e => rw [hc] at h; exact absurd h (by simp)
        | ok a1 =>
          rw [hc] at h
          obtain rfl : setTD a1 i (mkDescriptor r) = arena' := Except.ok.inj h
          have hin : i ∈ arenaIds a1 := by
            have hsub : arenaIds ((i, TypeDescriptor.placeholder) :: arena) ⊆ arenaIds a1 :=
              resolveChildren_mono (resolveFuel g fuel)
                (fun ar j ar' hh => resolveFuel_mono g fuel ar j ar' hh)
                (recordRefs r) _ _ hc
            exact hsub (by rw [arenaIds_cons]; exact Finset.mem_insert_self _ _)
          exact (mem_arenaIds _ _).mp (by rw [arenaIds_setTD]; exact hin)

/-- With enough fuel for the unresolved identities, resolving a child list
never runs out of fuel. -/
theorem resolveChildren_no_outOfFuel (g : List (Nat × DwarfRecord)) (fuel : Nat)
    (hstep : ∀ arena j, unresolvedCount g arena < fuel →
      resolveFuel g fuel arena j ≠ .error .outOfFuel)
    (js : List Nat) : ∀ arena, unresolvedCount g arena < fuel →
      resolveChildren (resolveFuel g fuel) arena js ≠ .error .outOfFuel := by
  induction js with
  | nil =>
    intro arena h
    simp [resolveChildren]
  | cons j js ih =>
    intro arena h
    simp only [resolveChildren]
    cases hs : resolveFuel g fuel arena j with
    | error e =>
      intro hcon
      have he : e = .outOfFuel := Except.error.inj hcon
      exact hstep arena j h (he ▸ hs)
    | ok a1 =>
      have hle : unresolvedCount g a1 ≤ unresolvedCount g arena :=
        unresolvedCount_antitone g arena a1 (resolveFuel_mono g fuel arena j a1 hs)
      exact ih a1 (lt_of_le_of_lt hle h)

/-- The placeholder discipline bounds the recursion: with fuel exceeding the
number of unresolved graph identities, `resolveFuel` never runs out of
fuel. -/
theorem resolveFuel_no_outOfFuel (g : List (Nat × DwarfRecord)) :
    ∀ fuel arena i, unresolvedCount g arena < fuel →
      resolveFuel g fuel arena i ≠ .error .outOfFuel := by
  intro fuel
  induction fuel with
  | zero =>
    intro arena i h
    exact absurd h (Nat.not_lt_zero _)
  | succ fuel ih =>
    intro arena i h
    simp only [resolveFuel]
    by_cases hhit : (lookupTD arena i).isSome
    · rw [if_pos hhit]
      simp
    · rw [if_neg hhit]
      cases hr : lookupRecord g i with
      | none => simp
      | some r =>
        have hg : i ∈ graphIds g := mem_graphIds_of_lookupRecord g i r hr
        have hnot : i ∉ arenaIds arena := by
          rw [mem_arenaIds]
          exact hhit
        have hlt : unresolvedCount g ((i, TypeDescriptor.placeholder) :: arena) < fuel := by
          have := unresolvedCount_insert_lt g arena i .placeholder hg hnot
          omega
        have hchild := resolveChildren_no_outOfFuel g fuel
          (fun ar j hh => ih ar j hh) (recordRefs r)
          ((i, TypeDescriptor.placeholder) :: arena) hlt
        intro hcon
        replace hcon : (match resolveChildren (resolveFuel g fuel)
            ((i, TypeDescriptor.placeholder) :: arena) (recordRefs r) with
          | Except.error e => Except.error e
          | Except.ok arena2 => Except.ok (setTD arena2 i (mkDescriptor r))) =
            Except.error Err.outOfFuel := hcon
        cases hc : resolveChildren (resolveFuel g fuel)
            ((i, TypeDescriptor.placeholder) :: arena) (recordRefs r) with
        | error e =>
          rw [hc] at hcon
          have he : e = .outOfFuel := Except.error.inj hcon
          exact hchild (he ▸ hc)
        | ok a1 =>
          rw [hc] at hcon
          exact Except.noConfusion hcon

/-- C7: type resolution terminates for every record of every record graph —
self-referential and mutually-referential structures included — because the
resolver registers an in-progress placeholder under the record's identity
before recursing and any reference back to a registered identity is a cache
hit: starting from an empty cache, fuel exceeding the number of distinct
record identities is never exhausted. -/
theorem resolve_terminates (g : List (Nat × DwarfRecord)) (i fuel : Nat)
    (h : (graphIds g).card < fuel) :
    resolveFuel g fuel [] i ≠ .error .outOfFuel := by
  apply resolveFuel_no_outOfFuel
  unfold unresolvedCount
  have hempty : arenaIds [] = ∅ := rfl
  rw [hempty, Finset.sdiff_empty]
  exact h

/-- C7 witness: the self-referential `struct node` graph resolves within the
step bound. -/
theorem resolve_terminates_witness :
    (graphIds gSelf).card < 4 ∧ resolveFuel gSelf 4 [] 0 ≠ .error .outOfFuel :=
  ⟨by decide, resolve_terminates gSelf 0 4 (by decide)⟩

/-- C8: resolution is idempotent and structurally sharing per record
identity: a second resolution of an already-resolved identity is a cache hit
returning the arena — and hence the cached descriptor — unchanged; and in the
resolved pointer-to-struct-to-pointer chain `gChain`, the struct's member
type is arena key 1, a pointer whose referent is arena key 0: the original
struct descriptor itself, not a duplicate. -/
theorem resolve_cached_and_shared (g : List (Nat × DwarfRecord))
    (fuel fuel' : Nat) (arena arena' : Arena) (i : Nat)
    (h : resolveFuel g fuel arena i = .ok arena') (h' : 0 < fuel') :
    (resolveFuel g fuel' arena' i = .ok arena' ∧ (lookupTD arena' i).isSome) ∧
    (resolveFuel gChain 3 [] 0 = .ok arenaChain ∧
      lookupTD arenaChain 0 = some (.struct_ "S" 8 [("self", 0, 1)]) ∧
      lookupTD arenaChain 1 = some (.pointer 0)) := by
  refine ⟨⟨?_, resolveFuel_registered g fuel arena i arena' h⟩, by decide⟩
  have hreg := resolveFuel_registered g fuel arena i arena' h
  cases fuel' with
  | zero => exact absurd h' (lt_irrefl 0)
  | succ f =>
    simp only [resolveFuel]
    rw [if_pos hreg]

/-- C8 witness: the chain graph resolved twice yields the identical arena. -/
theorem resolve_cached_and_shared_witness :
    (resolveFuel gChain 5 arenaChain 0 = .ok arenaChain ∧
      (lookupTD arenaChain 0).isSome) ∧
    (resolveFuel gChain 3 [] 0 = .ok arenaChain ∧
      lookupTD arenaChain 0 = some (.struct_ "S" 8 [("self", 0, 1)]) ∧
      lookupTD arenaChain 1 = some (.pointer 0)) :=
  resolve_cached_and_shared gChain 3 5 [] arenaChain 0 (by decide) (by decide)

end Drgn
